import Mathlib

/-!
Verification of the collaboration-session core (`src/src-tauri/src/collab.rs`).

The Rust module keeps a `HashMap<String, UserPresence>` behind a lock and a
broadcast channel; every mutating operation optionally edits the map and
publishes messages on the channel.  We embed the state as an association list
with unique keys (the hash map), and each operation returns the new session
together with the list of messages it published during the call.  Timestamps
taken from the wall clock (`chrono::Utc::now().timestamp()`) become explicit
`now` parameters.
-/

/-- The `CursorPosition` from collab.rs: line, column, file, timestamp. -/
structure CursorPosition where
  line : Nat
  column : Nat
  file : String
  timestamp : Int
deriving DecidableEq, Repr

/-- The `UserPresence` from collab.rs. -/
structure UserPresence where
  id : String
  name : String
  color : String
  cursor : Option CursorPosition
  lastSeen : Int
  isActive : Bool
deriving DecidableEq, Repr

/-- The `UserPresence::new`: fresh presence with no cursor, active, last seen now. -/
def UserPresence.new (id name color : String) (now : Int) : UserPresence :=
  { id := id, name := name, color := color, cursor := none,
    lastSeen := now, isActive := true }

/-- The `TextChange` from collab.rs. -/
structure TextChange where
  range : Nat × Nat
  text : String
deriving DecidableEq, Repr

/-- The `EditOp` from collab.rs. -/
structure EditOp where
  userId : String
  file : String
  changes : List TextChange
  version : Nat
  timestamp : Int
deriving DecidableEq, Repr

/-- The `CollabMessage` enum from collab.rs (full protocol). -/
inductive CollabMessage where
  | UserJoin (user : UserPresence)
  | UserLeave (userId : String)
  | UserInactive (userId : String)
  | CursorMove (userId : String) (cursor : CursorPosition)
  | CursorBatch (updates : List (String × CursorPosition))
  | Edit (userId : String) (file : String) (content : String) (version : Nat)
  | EditBatch (updates : List EditOp)
  | ListUsers
  | Users (users : List UserPresence)
  | SessionInfo (sessionId : String) (usersCount : Nat) (createdAt : Int)
  | Ping (timestamp : Int)
  | Pong (timestamp : Int)
  | ProtoError (code : String) (message : String)
  | Ack (messageId : String)
deriving DecidableEq, Repr

/-!
Association-list model of `HashMap<String, V>`.  Keys in a hash map are
unique; the model keeps at most one live binding per key on every path the
operations below produce, and lemmas that genuinely need global key
uniqueness take it as a `Nodup` hypothesis.
-/

/-- The `HashMap::insert`: replace the binding if the key is present
(position kept), append it otherwise. -/
def hmInsert {β : Type} (k : String) (v : β) :
    List (String × β) → List (String × β)
  | [] => [(k, v)]
  | e :: rest => if e.1 = k then (k, v) :: rest else e :: hmInsert k v rest

/-- The `HashMap::remove`: drop the (first) binding of the key. -/
def hmRemove {β : Type} (k : String) :
    List (String × β) → List (String × β)
  | [] => []
  | e :: rest => if e.1 = k then rest else e :: hmRemove k rest

/-- The `HashMap::get_mut` followed by a mutation: rewrite the (first) binding of
the key with `f`, leave the map unchanged if the key is absent. -/
def hmUpdate {β : Type} (k : String) (f : β → β) :
    List (String × β) → List (String × β)
  | [] => []
  | e :: rest => if e.1 = k then (e.1, f e.2) :: rest else e :: hmUpdate k f rest

/-- The `HashMap::get`: value at the key, if any. -/
def hmLookup {β : Type} (k : String) :
    List (String × β) → Option β
  | [] => none
  | e :: rest => if e.1 = k then some e.2 else hmLookup k rest

/-- The `HashMap::contains_key`. -/
def hmContains {β : Type} (k : String) (m : List (String × β)) : Bool :=
  (hmLookup k m).isSome

/-- The `CollabSession` state: id, user map, creation time, capacity.  The
broadcast sender has no state we track beyond the messages each call sends. -/
structure CollabSession where
  id : String
  users : List (String × UserPresence)
  createdAt : Int
  maxUsers : Nat
deriving DecidableEq, Repr

/-- The `CollabSession::new` with the generated uuid and clock reading made
explicit parameters. -/
def CollabSession.new (sessionId : String) (now : Int) (max_users : Nat) :
    CollabSession :=
  { id := sessionId, users := [], createdAt := now, maxUsers := max_users }

/-- The `CollabSession::add_user`: reject when `users.len() >= maxUsers`,
otherwise insert keyed by `presence.id` and publish one `UserJoin`. -/
def CollabSession.add_user (s : CollabSession) (presence : UserPresence) :
    Except String Unit × CollabSession × List CollabMessage :=
  if s.users.length ≥ s.maxUsers then
    (Except.error ("Session full: " ++ toString s.maxUsers ++ " users max"), s, [])
  else
    (Except.ok (),
     { s with users := hmInsert presence.id presence s.users },
     [CollabMessage.UserJoin presence])

/-- The `CollabSession::remove_user`: remove unconditionally, publish one
`UserLeave` unconditionally. -/
def CollabSession.remove_user (s : CollabSession) (user_id : String) :
    CollabSession × List CollabMessage :=
  ({ s with users := hmRemove user_id s.users },
   [CollabMessage.UserLeave user_id])

/-- The `CollabSession::mark_inactive`: clear the active flag if present,
publish one `UserInactive` unconditionally. -/
def CollabSession.mark_inactive (s : CollabSession) (user_id : String) :
    CollabSession × List CollabMessage :=
  ({ s with users := hmUpdate user_id (fun u => { u with isActive := false }) s.users },
   [CollabMessage.UserInactive user_id])

/-- The `CollabSession::update_cursor`: set cursor and refresh `lastSeen` if the
user is present, publish one `CursorMove` unconditionally. -/
def CollabSession.update_cursor (s : CollabSession) (user_id : String)
    (cursor : CursorPosition) (now : Int) :
    CollabSession × List CollabMessage :=
  ({ s with users := (hmUpdate user_id
      (fun u => { u with cursor := some cursor, lastSeen := now }) s.users) },
   [CollabMessage.CursorMove user_id cursor])

/-- The `CollabSession::batch_cursor_updates`: apply every update under the one
lock, publish one `CursorBatch` carrying the whole batch. -/
def CollabSession.batch_cursor_updates (s : CollabSession)
    (updates : List (String × CursorPosition)) (now : Int) :
    CollabSession × List CollabMessage :=
  ({ s with users := (updates.foldl
      (fun m kc => hmUpdate kc.1
        (fun u => { u with cursor := some kc.2, lastSeen := now }) m) s.users) },
   [CollabMessage.CursorBatch updates])

/-- The `CollabSession::get_users`: values of the map whose active flag is set. -/
def CollabSession.get_users (s : CollabSession) : List UserPresence :=
  (s.users.filter (fun e => e.2.isActive)).map (fun e => e.2)

/-- The `CollabSession::get_user`. -/
def CollabSession.get_user (s : CollabSession) (user_id : String) :
    Option UserPresence :=
  hmLookup user_id s.users

/-- The `CollabSession::info`: a `SessionInfo` built from the session id, the
size of the user map (`users.len()`), and the creation timestamp. -/
def CollabSession.info (s : CollabSession) : CollabMessage :=
  CollabMessage.SessionInfo s.id s.users.length s.createdAt

/-- The `CollabSession::cleanup_inactive`: collect the ids whose
`now - lastSeen > timeout_secs`, then remove each collected id; nothing is
published. -/
def CollabSession.cleanup_inactive (s : CollabSession) (timeout_secs : Int)
    (now : Int) : CollabSession × List CollabMessage :=
  ({ s with users :=
      ((s.users.filter (fun e => decide (now - e.2.lastSeen > timeout_secs))).map
        (fun e => e.1)).foldl (fun m k => hmRemove k m) s.users },
   [])

/-- The `USER_COLORS` palette from collab.rs. -/
def USER_COLORS : List String :=
  ["#FF6B6B", "#4ECDC4", "#45B7D1", "#FFA07A",
   "#98D8C8", "#F7DC6F", "#BB8FCE", "#85C1E2"]

/-- The `get_user_color`: index the palette modulo its length. -/
def get_user_color (index : Nat) : String :=
  USER_COLORS.get ⟨index % USER_COLORS.length, Nat.mod_lt index (by decide)⟩

/-- One public mutating operation of the session, for reasoning about
operation sequences. -/
inductive SessionOp where
  | addUser (p : UserPresence)
  | removeUser (uid : String)
  | markInactive (uid : String)
  | updateCursor (uid : String) (c : CursorPosition) (now : Int)
  | batchCursor (updates : List (String × CursorPosition)) (now : Int)
  | cleanupInactive (timeout now : Int)

/-- Whether the operation is `add_user`. -/
def SessionOp.isAdd : SessionOp → Bool
  | .addUser _ => true
  | _ => false

/-- State reached after performing one operation (messages discarded). -/
def applyOp (s : CollabSession) : SessionOp → CollabSession
  | .addUser p => (s.add_user p).2.1
  | .removeUser uid => (s.remove_user uid).1
  | .markInactive uid => (s.mark_inactive uid).1
  | .updateCursor uid c now => (s.update_cursor uid c now).1
  | .batchCursor updates now => (s.batch_cursor_updates updates now).1
  | .cleanupInactive t now => (s.cleanup_inactive t now).1

/-- State reached after a sequence of operations. -/
def runOps (s : CollabSession) (ops : List SessionOp) : CollabSession :=
  ops.foldl applyOp s

/-!
Lemmas about the map model.
-/

theorem hmInsert_length_le {β : Type} (k : String) (v : β) (m : List (String × β)) :
    (hmInsert k v m).length ≤ m.length + 1 := by
  induction m with
  | nil => simp [hmInsert]
  | cons e rest ih =>
    by_cases h : e.1 = k
    · simp [hmInsert, h]
    · simp only [hmInsert, if_neg h, List.length_cons]
      exact Nat.succ_le_succ ih

theorem hmRemove_length_le {β : Type} (k : String) (m : List (String × β)) :
    (hmRemove k m).length ≤ m.length := by
  induction m with
  | nil => simp [hmRemove]
  | cons e rest ih =>
    by_cases h : e.1 = k
    · simp [hmRemove, h, Nat.le_succ]
    · simp only [hmRemove, if_neg h, List.length_cons]
      exact Nat.succ_le_succ ih

theorem hmUpdate_length {β : Type} (k : String) (f : β → β) (m : List (String × β)) :
    (hmUpdate k f m).length = m.length := by
  induction m with
  | nil => simp [hmUpdate]
  | cons e rest ih =>
    by_cases h : e.1 = k
    · simp [hmUpdate, h]
    · simp only [hmUpdate, if_neg h, List.length_cons, ih]

theorem hmLookup_hmInsert_self {β : Type} (k : String) (v : β) (m : List (String × β)) :
    hmLookup k (hmInsert k v m) = some v := by
  induction m with
  | nil => simp [hmInsert, hmLookup]
  | cons e rest ih =>
    by_cases h : e.1 = k
    · simp [hmInsert, hmLookup, h]
    · simp [hmInsert, hmLookup, h, ih]

theorem hmLookup_hmInsert_ne {β : Type} (j k : String) (v : β) (m : List (String × β))
    (hjk : j ≠ k) : hmLookup j (hmInsert k v m) = hmLookup j m := by
  induction m with
  | nil => simp [hmInsert, hmLookup, Ne.symm hjk]
  | cons e rest ih =>
    by_cases h : e.1 = k
    · simp [hmInsert, hmLookup, h, hjk, Ne.symm hjk]
    · by_cases hj : e.1 = j
      · simp [hmInsert, hmLookup, h, hj, hjk, Ne.symm hjk]
      · simp [hmInsert, hmLookup, h, hj, ih]

theorem hmLookup_hmUpdate_self {β : Type} (k : String) (f : β → β) (m : List (String × β)) :
    hmLookup k (hmUpdate k f m) = (hmLookup k m).map f := by
  induction m with
  | nil => simp [hmUpdate, hmLookup]
  | cons e rest ih =>
    by_cases h : e.1 = k
    · simp [hmUpdate, hmLookup, h]
    · simp [hmUpdate, hmLookup, h, ih]

theorem hmLookup_hmUpdate_ne {β : Type} (j k : String) (f : β → β) (m : List (String × β))
    (hjk : j ≠ k) : hmLookup j (hmUpdate k f m) = hmLookup j m := by
  induction m with
  | nil => simp [hmUpdate]
  | cons e rest ih =>
    by_cases h : e.1 = k
    · simp [hmUpdate, hmLookup, h, hjk, Ne.symm hjk]
    · by_cases hj : e.1 = j
      · simp [hmUpdate, hmLookup, h, hj, hjk, Ne.symm hjk]
      · simp [hmUpdate, hmLookup, h, hj, ih]

theorem hmLookup_hmRemove_ne {β : Type} (j k : String) (m : List (String × β))
    (hjk : j ≠ k) : hmLookup j (hmRemove k m) = hmLookup j m := by
  induction m with
  | nil => simp [hmRemove]
  | cons e rest ih =>
    by_cases h : e.1 = k
    · simp [hmRemove, hmLookup, h, hjk, Ne.symm hjk]
    · by_cases hj : e.1 = j
      · simp [hmRemove, hmLookup, h, hj, hjk, Ne.symm hjk]
      · simp [hmRemove, hmLookup, h, hj, ih]

theorem hmLookup_eq_none_of_contains_false {β : Type} (k : String)
    (m : List (String × β)) (h : hmContains k m = false) : hmLookup k m = none := by
  simpa [hmContains, Option.isSome_iff_exists] using h

theorem hmUpdate_absent {β : Type} (k : String) (f : β → β) (m : List (String × β))
    (h : hmContains k m = false) : hmUpdate k f m = m := by
  induction m with
  | nil => simp [hmUpdate]
  | cons e rest ih =>
    by_cases he : e.1 = k
    · exfalso
      simp [hmContains, hmLookup, he] at h
    · have hrest : hmContains k rest = false := by
        simpa [hmContains, hmLookup, he] using h
      simp [hmUpdate, he, ih hrest]

theorem hmRemove_absent {β : Type} (k : String) (m : List (String × β))
    (h : hmContains k m = false) : hmRemove k m = m := by
  induction m with
  | nil => simp [hmRemove]
  | cons e rest ih =>
    by_cases he : e.1 = k
    · exfalso
      simp [hmContains, hmLookup, he] at h
    · have hrest : hmContains k rest = false := by
        simpa [hmContains, hmLookup, he] using h
      simp [hmRemove, he, ih hrest]

theorem hmContains_of_mem {β : Type} (k : String) (v : β) (m : List (String × β))
    (h : (k, v) ∈ m) : hmContains k m = true := by
  induction m with
  | nil => simp at h
  | cons e rest ih =>
    rcases List.mem_cons.1 h with he | hrest
    · simp [hmContains, hmLookup, ← he]
    · by_cases hk : e.1 = k
      · simp [hmContains, hmLookup, hk]
      · simpa [hmContains, hmLookup, hk] using ih hrest

theorem hmContains_false_of_not_mem_keys {β : Type} (k : String)
    (m : List (String × β)) (h : k ∉ m.map Prod.fst) : hmContains k m = false := by
  induction m with
  | nil => simp [hmContains, hmLookup]
  | cons e rest ih =>
    have hne : e.1 ≠ k := fun hk => h (by simp [hk])
    have hrest : k ∉ rest.map Prod.fst := fun hk => h (by simp [hk])
    simpa [hmContains, hmLookup, hne] using ih hrest

theorem hmLookup_hmRemove_self {β : Type} (k : String) (m : List (String × β))
    (h : (m.map Prod.fst).Nodup) : hmLookup k (hmRemove k m) = none := by
  induction m with
  | nil => simp [hmRemove, hmLookup]
  | cons e rest ih =>
    rcases List.nodup_cons.1 h with ⟨h1, h2⟩
    by_cases he : e.1 = k
    · subst he
      simp only [hmRemove, if_pos rfl]
      exact hmLookup_eq_none_of_contains_false _ _
        (hmContains_false_of_not_mem_keys _ _ h1)
    · simp [hmRemove, he, hmLookup, ih h2]

theorem hmRemove_hmRemove {β : Type} (k : String) (m : List (String × β))
    (h : (m.map Prod.fst).Nodup) : hmRemove k (hmRemove k m) = hmRemove k m := by
  apply hmRemove_absent
  simp [hmContains, hmLookup_hmRemove_self k m h]

theorem mem_hmUpdate_hmInsert {β : Type} (k : String) (f : β → β) (v : β)
    (m : List (String × β)) : (k, f v) ∈ hmUpdate k f (hmInsert k v m) := by
  induction m with
  | nil => simp [hmInsert, hmUpdate]
  | cons e rest ih =>
    by_cases he : e.1 = k
    · simp [hmInsert, hmUpdate, he]
    · simp only [hmInsert, if_neg he, hmUpdate, List.mem_cons]
      exact Or.inr ih

theorem mem_hmUpdate_of {β : Type} (k : String) (f : β → β)
    (m : List (String × β)) (h : (m.map Prod.fst).Nodup) (e : String × β)
    (he : e ∈ hmUpdate k f m) :
    (e ∈ m ∧ e.1 ≠ k) ∨ (∃ v, (k, v) ∈ m ∧ e = (k, f v)) := by
  induction m with
  | nil => simp [hmUpdate] at he
  | cons a rest ih =>
    rcases List.nodup_cons.1 h with ⟨h1, h2⟩
    by_cases ha : a.1 = k
    · simp only [hmUpdate, if_pos ha] at he
      rcases List.mem_cons.1 he with rfl | hrest
      · right
        refine ⟨a.2, ?_, by rw [ha]⟩
        rw [← ha]
        exact List.mem_cons_self a rest
      · left
        refine ⟨List.mem_cons_of_mem _ hrest, fun hek => h1 ?_⟩
        rw [ha, ← hek]
        exact List.mem_map_of_mem Prod.fst hrest
    · simp only [hmUpdate, if_neg ha] at he
      rcases List.mem_cons.1 he with rfl | hrest
      · exact Or.inl ⟨List.mem_cons_self _ _, ha⟩
      · rcases ih h2 hrest with ⟨hm, hne⟩ | ⟨v, hv, he2⟩
        · exact Or.inl ⟨List.mem_cons_of_mem _ hm, hne⟩
        · exact Or.inr ⟨v, List.mem_cons_of_mem _ hv, he2⟩

theorem foldl_hmRemove_cons_ne {β : Type} (a : String × β) (ks : List String)
    (hne : ∀ k ∈ ks, k ≠ a.1) :
    ∀ m : List (String × β),
      ks.foldl (fun m k => hmRemove k m) (a :: m)
        = a :: ks.foldl (fun m k => hmRemove k m) m := by
  induction ks with
  | nil => intro m; rfl
  | cons k ks ih =>
    intro m
    have hka : ¬ a.1 = k := fun hh => (hne k (List.mem_cons_self _ _)) hh.symm
    simp only [List.foldl_cons, hmRemove, if_neg hka]
    exact ih (fun j hj => hne j (List.mem_cons_of_mem _ hj)) (hmRemove k m)

theorem foldl_hmRemove_eq_filter {β : Type} (P : String × β → Bool)
    (m : List (String × β)) (h : (m.map Prod.fst).Nodup) :
    ((m.filter P).map (fun e => e.1)).foldl (fun acc k => hmRemove k acc) m
      = m.filter (fun e => !P e) := by
  induction m with
  | nil => rfl
  | cons a rest ih =>
    rcases List.nodup_cons.1 h with ⟨h1, h2⟩
    by_cases hP : P a
    · rw [List.filter_cons_of_pos hP, List.map_cons, List.foldl_cons]
      have hra : hmRemove a.1 (a :: rest) = rest := by
        simp [hmRemove]
      rw [hra, ih h2, List.filter_cons_of_neg (by simp [hP])]
    · have hPf : P a = false := Bool.eq_false_iff.2 hP
      rw [List.filter_cons_of_neg (by simp [hPf])]
      have hne : ∀ k ∈ (rest.filter P).map (fun e => e.1), k ≠ a.1 := by
        intro k hk hka
        rcases List.mem_map.1 hk with ⟨e, hef, rfl⟩
        exact h1 (hka ▸ List.mem_map_of_mem Prod.fst (List.mem_of_mem_filter hef))
      rw [foldl_hmRemove_cons_ne a _ hne rest, ih h2,
        List.filter_cons_of_pos (by simp [hPf])]

theorem foldl_hmRemove_length_le {β : Type} (ks : List String) :
    ∀ m : List (String × β),
      (ks.foldl (fun m k => hmRemove k m) m).length ≤ m.length := by
  induction ks with
  | nil => intro m; simp
  | cons k ks ih =>
    intro m
    simp only [List.foldl_cons]
    exact le_trans (ih _) (hmRemove_length_le k m)

theorem foldl_hmUpdate_length (updates : List (String × CursorPosition)) (now : Int) :
    ∀ m : List (String × UserPresence),
      (updates.foldl (fun m kc => hmUpdate kc.1
        (fun u => { u with cursor := some kc.2, lastSeen := now }) m) m).length
        = m.length := by
  induction updates with
  | nil => intro m; rfl
  | cons kc updates ih =>
    intro m
    simp only [List.foldl_cons]
    rw [ih, hmUpdate_length]

theorem mem_get_users_iff (s : CollabSession) (v : UserPresence) :
    v ∈ s.get_users ↔ (∃ k, (k, v) ∈ s.users) ∧ v.isActive = true := by
  constructor
  · intro hv
    rcases List.mem_map.1 hv with ⟨e, hef, rfl⟩
    rcases List.mem_filter.1 hef with ⟨hmem, hact⟩
    exact ⟨⟨e.1, by simpa using hmem⟩, hact⟩
  · rintro ⟨⟨k, hk⟩, hact⟩
    exact List.mem_map.2 ⟨(k, v), List.mem_filter.2 ⟨hk, hact⟩, rfl⟩

/-!
Concrete values used by counterexamples and witnesses.
-/

/-- A presence as `join` would build it: active, no cursor. -/
def demoAlice : UserPresence := UserPresence.new "u1" "Alice" (get_user_color 0) 3

/-- A presence whose active flag is down (e.g. after `mark_inactive`). -/
def inactiveBob : UserPresence :=
  { id := "u2", name := "Bob", color := "#4ECDC4", cursor := none,
    lastSeen := 0, isActive := false }

/-- A fresh empty session with room for ten users. -/
def emptySession : CollabSession := CollabSession.new "sess" 0 10

/-- A session already at its capacity of one. -/
def fullSession : CollabSession :=
  { id := "full", users := [("u1", demoAlice)], createdAt := 0, maxUsers := 1 }

/-- A session holding one inactive user. -/
def infoSession : CollabSession :=
  { id := "isess", users := [("u2", inactiveBob)], createdAt := 5, maxUsers := 10 }

/-- A concrete cursor position. -/
def demoCursor : CursorPosition :=
  { line := 42, column := 15, file := "src/main.rs", timestamp := 7 }

/-- C1: `add_user` returns `Ok` exactly when the stored user count is below
`maxUsers`; below capacity it stores the presence under its id (overwriting
any previous binding with that id, leaving every other id's binding
untouched) and publishes exactly one `UserJoin`; at or above capacity it
returns an error, leaves the session unchanged and publishes nothing; with
`maxUsers = 0` every call fails. -/
theorem add_user_spec (s : CollabSession) (p : UserPresence) :
    ((s.add_user p).1 = Except.ok () ↔ s.users.length < s.maxUsers)
    ∧ (s.users.length < s.maxUsers →
        (s.add_user p).2.1.users = hmInsert p.id p s.users
        ∧ hmLookup p.id (s.add_user p).2.1.users = some p
        ∧ (∀ k, k ≠ p.id →
            hmLookup k (s.add_user p).2.1.users = hmLookup k s.users)
        ∧ (s.add_user p).2.2 = [CollabMessage.UserJoin p])
    ∧ (s.maxUsers ≤ s.users.length →
        (s.add_user p).2.1 = s ∧ (s.add_user p).2.2 = []
        ∧ ∃ msg, (s.add_user p).1 = Except.error msg)
    ∧ (s.maxUsers = 0 → ∃ msg, (s.add_user p).1 = Except.error msg) := by
  unfold CollabSession.add_user
  by_cases h : s.users.length ≥ s.maxUsers
  · rw [if_pos h]
    refine ⟨⟨fun hok => ?_, fun hlt => absurd hlt (not_lt.2 h)⟩,
      fun hlt => absurd hlt (not_lt.2 h),
      fun _ => ⟨rfl, rfl, _, rfl⟩,
      fun _ => ⟨_, rfl⟩⟩
    exact Except.noConfusion hok
  · have hlt : s.users.length < s.maxUsers := lt_of_not_ge h
    rw [if_neg h]
    refine ⟨⟨fun _ => hlt, fun _ => rfl⟩,
      fun _ => ⟨rfl, hmLookup_hmInsert_self p.id p s.users,
        fun k hk => hmLookup_hmInsert_ne k p.id p s.users hk, rfl⟩,
      fun hle => absurd hlt (not_lt.2 hle),
      fun h0 => ?_⟩
    rw [h0] at hlt
    exact absurd hlt (Nat.not_lt_zero _)

/-- C1 witness: on the empty ten-user session, adding Alice succeeds. -/
theorem add_user_spec_witness :
    (emptySession.add_user demoAlice).1 = Except.ok () :=
  (add_user_spec emptySession demoAlice).1.2 (by decide)

/-- C10: when the stored count already equals `maxUsers`, `add_user` fails
even for an id that is present in the map (the size check runs before the
insert), leaving the session unchanged and publishing nothing. -/
theorem add_user_full_rejects_existing (s : CollabSession) (p : UserPresence)
    (hfull : s.users.length = s.maxUsers)
    (_hmem : hmContains p.id s.users = true) :
    (∃ msg, (s.add_user p).1 = Except.error msg)
    ∧ (s.add_user p).2.1 = s ∧ (s.add_user p).2.2 = [] := by
  have hge : s.users.length ≥ s.maxUsers := le_of_eq hfull.symm
  unfold CollabSession.add_user
  rw [if_pos hge]
  exact ⟨⟨_, rfl⟩, rfl, rfl⟩

/-- C10 witness: re-adding Alice to the full one-user session fails. -/
theorem add_user_full_rejects_existing_witness :
    ∃ msg, (fullSession.add_user demoAlice).1 = Except.error msg :=
  (add_user_full_rejects_existing fullSession demoAlice (by decide) (by decide)).1

/-- C3 counterexample: on a session holding one inactive user, `info`
reports a `usersCount` of 1 while the active user count is 0, so
`usersCount` is not the active count the claim describes. -/
theorem info_counts_inactive_users :
    infoSession.info = CollabMessage.SessionInfo "isess" 1 5
    ∧ infoSession.get_users.length = 0
    ∧ (1 : Nat) ≠ 0 := ⟨rfl, rfl, by decide⟩

/-- C3 amended: `info` returns a `SessionInfo` whose `sessionId` is the
session's id, whose `createdAt` is the creation timestamp, and whose
`usersCount` is the total number of stored users (active or not); the
active user count never exceeds it. -/
theorem info_spec (s : CollabSession) :
    ∃ n, s.info = CollabMessage.SessionInfo s.id n s.createdAt
      ∧ n = s.users.length
      ∧ s.get_users.length ≤ n := by
  refine ⟨s.users.length, rfl, rfl, ?_⟩
  simp only [CollabSession.get_users, List.length_map]
  exact List.length_filter_le _ _

/-- C9: `get_user_color` indexes the fixed eight-entry palette modulo its
length, hence is total; the palette entries are pairwise distinct, so two
indices receive the same color exactly when they are congruent mod 8. -/
theorem get_user_color_spec :
    USER_COLORS.length = 8
    ∧ USER_COLORS.Nodup
    ∧ (∀ i : Nat, ∃ h : i % 8 < USER_COLORS.length,
        get_user_color i = USER_COLORS.get ⟨i % 8, h⟩)
    ∧ (∀ i j : Nat, get_user_color i = get_user_color j ↔ i % 8 = j % 8) := by
  have hnd : USER_COLORS.Nodup := by decide
  refine ⟨rfl, hnd, fun i => ⟨Nat.mod_lt i (by decide), rfl⟩, fun i j => ?_⟩
  unfold get_user_color
  rw [hnd.get_inj_iff]
  exact ⟨fun hf => congrArg Fin.val hf, fun he => Fin.ext he⟩

/-- A stale active user (last seen at time 0). -/
def staleCarol : UserPresence :=
  { id := "u3", name := "Carol", color := "#45B7D1", cursor := none,
    lastSeen := 0, isActive := true }

/-- A recently seen active user. -/
def freshDave : UserPresence :=
  { id := "u4", name := "Dave", color := "#FFA07A", cursor := none,
    lastSeen := 90, isActive := true }

/-- A session holding one stale and one fresh user. -/
def reapSession : CollabSession :=
  { id := "rsess", users := [("u3", staleCarol), ("u4", freshDave)],
    createdAt := 0, maxUsers := 10 }

/-- C4: `cleanup_inactive` keeps exactly the records with
`now - lastSeen ≤ timeout` (it removes exactly the users with
`now - lastSeen > timeout` and no others, leaving every surviving record
unchanged in place) and publishes nothing on the bus. -/
theorem cleanup_inactive_spec (s : CollabSession) (t now : Int)
    (h : (s.users.map Prod.fst).Nodup) :
    (s.cleanup_inactive t now).1.users
      = s.users.filter (fun e => decide (now - e.2.lastSeen ≤ t))
    ∧ (∀ e : String × UserPresence,
        e ∈ (s.cleanup_inactive t now).1.users
          ↔ e ∈ s.users ∧ now - e.2.lastSeen ≤ t)
    ∧ (s.cleanup_inactive t now).2 = [] := by
  have hkeep : (s.cleanup_inactive t now).1.users
      = s.users.filter (fun e => decide (now - e.2.lastSeen ≤ t)) := by
    show ((s.users.filter (fun e => decide (now - e.2.lastSeen > t))).map
        (fun e => e.1)).foldl (fun m k => hmRemove k m) s.users = _
    rw [foldl_hmRemove_eq_filter (fun e => decide (now - e.2.lastSeen > t)) s.users h]
    apply List.filter_congr
    intro e _
    rw [← decide_not]
    exact decide_eq_decide.2 not_lt
  refine ⟨hkeep, fun e => ?_, rfl⟩
  rw [hkeep]
  simp [List.mem_filter]

/-- C4 witness: with timeout 30 at time 100, the stale user is reaped and
the fresh one survives untouched. -/
theorem cleanup_inactive_spec_witness :
    (reapSession.cleanup_inactive 30 100).1.users = [("u4", freshDave)] := by
  have h := cleanup_inactive_spec reapSession 30 100 (by decide)
  rw [h.1]
  rfl

/-- C5: `update_cursor` on an id that is not in the store changes nothing in
the session (a silent no-op, not an error), still publishes exactly one
`CursorMove` carrying that id and cursor, and the ghost id does not show up
in the roster afterwards (keys equal the stored ids). -/
theorem update_cursor_ghost (s : CollabSession) (uid : String)
    (c : CursorPosition) (now : Int)
    (habs : hmContains uid s.users = false)
    (hwk : ∀ e ∈ s.users, e.1 = e.2.id) :
    (s.update_cursor uid c now).1 = s
    ∧ (s.update_cursor uid c now).2 = [CollabMessage.CursorMove uid c]
    ∧ ∀ u ∈ (s.update_cursor uid c now).1.get_users, u.id ≠ uid := by
  have husers : hmUpdate uid
      (fun u => { u with cursor := some c, lastSeen := now }) s.users = s.users :=
    hmUpdate_absent uid _ s.users habs
  have hstate : (s.update_cursor uid c now).1 = s := by
    show { s with users := hmUpdate uid _ s.users } = s
    rw [husers]
  refine ⟨hstate, rfl, ?_⟩
  intro u hu hid
  rw [hstate] at hu
  rcases (mem_get_users_iff s u).1 hu with ⟨⟨k, hk⟩, _⟩
  have hkid : k = uid := (hwk (k, u) hk).trans hid
  rw [hkid] at hk
  have hcon := hmContains_of_mem uid u s.users hk
  rw [habs] at hcon
  exact Bool.noConfusion hcon

/-- C5 witness: moving a ghost cursor on the full one-user session leaves it
unchanged and still publishes the `CursorMove`. -/
theorem update_cursor_ghost_witness :
    (fullSession.update_cursor "ghost" demoCursor 9).1 = fullSession
    ∧ (fullSession.update_cursor "ghost" demoCursor 9).2
      = [CollabMessage.CursorMove "ghost" demoCursor] := by
  have h := update_cursor_ghost fullSession "ghost" demoCursor 9 (by decide) (by decide)
  exact ⟨h.1, h.2.1⟩

/-- C6: `remove_user` is total and idempotent: a second removal of the same
id changes nothing, removing an absent id leaves the session unchanged,
every other id's binding is untouched, and each call (present or absent id,
first or second call) publishes exactly one `UserLeave` for that id. -/
theorem remove_user_spec (s : CollabSession) (uid : String)
    (h : (s.users.map Prod.fst).Nodup) :
    ((s.remove_user uid).1.remove_user uid).1 = (s.remove_user uid).1
    ∧ (hmContains uid s.users = false → (s.remove_user uid).1 = s)
    ∧ (∀ k, k ≠ uid →
        hmLookup k (s.remove_user uid).1.users = hmLookup k s.users)
    ∧ (s.remove_user uid).2 = [CollabMessage.UserLeave uid]
    ∧ ((s.remove_user uid).1.remove_user uid).2 = [CollabMessage.UserLeave uid] := by
  refine ⟨?_, ?_, ?_, rfl, rfl⟩
  · simp only [CollabSession.remove_user, hmRemove_hmRemove uid s.users h]
  · intro habs
    show { s with users := hmRemove uid s.users } = s
    rw [hmRemove_absent uid s.users habs]
  · intro k hk
    exact hmLookup_hmRemove_ne k uid s.users hk

/-- C6 witness: removing an id that was never added from the full session is
a no-op that still publishes one `UserLeave`. -/
theorem remove_user_spec_witness :
    (fullSession.remove_user "nobody").1 = fullSession
    ∧ (fullSession.remove_user "nobody").2 = [CollabMessage.UserLeave "nobody"] := by
  have h := remove_user_spec fullSession "nobody" (by decide)
  exact ⟨h.2.1 (by decide), h.2.2.2.1⟩

/-- C7 counterexample: `add_user` accepts a presence whose active flag is
false (it stores the struct verbatim), and after a cursor update the roster
is empty because `get_users` filters on the active flag — so the claim as
stated over every `UserPresence` fails. -/
theorem join_then_move_cursor_counterexample :
    (emptySession.add_user inactiveBob).1 = Except.ok ()
    ∧ ((emptySession.add_user inactiveBob).2.1.update_cursor
        inactiveBob.id demoCursor 9).1.get_users = []
    ∧ ¬ ∃ u2 ∈ ((emptySession.add_user inactiveBob).2.1.update_cursor
        inactiveBob.id demoCursor 9).1.get_users,
        u2.id = inactiveBob.id ∧ u2.cursor = some demoCursor := by
  refine ⟨rfl, rfl, ?_⟩
  rintro ⟨u2, hu2, -⟩
  have : ((emptySession.add_user inactiveBob).2.1.update_cursor
      inactiveBob.id demoCursor 9).1.get_users = [] := rfl
  rw [this] at hu2
  exact List.not_mem_nil u2 hu2

/-- C7 amended: for every presence `u` whose active flag is set (as it is
for every presence built by `UserPresence::new`), if `add_user u` succeeds
then after `update_cursor u.id c` the roster contains a record with id
`u.id` and cursor `Some c`. -/
theorem join_then_move_cursor (s : CollabSession) (u : UserPresence)
    (c : CursorPosition) (now : Int) (hact : u.isActive = true)
    (hok : (s.add_user u).1 = Except.ok ()) :
    ∃ u2 ∈ ((s.add_user u).2.1.update_cursor u.id c now).1.get_users,
      u2.id = u.id ∧ u2.cursor = some c := by
  by_cases hfull : s.users.length ≥ s.maxUsers
  · have : (s.add_user u).1 = Except.error
        ("Session full: " ++ toString s.maxUsers ++ " users max") := by
      unfold CollabSession.add_user
      rw [if_pos hfull]
    rw [this] at hok
    exact Except.noConfusion hok
  · have hins : (s.add_user u).2.1.users = hmInsert u.id u s.users := by
      unfold CollabSession.add_user
      rw [if_neg hfull]
    refine ⟨{ u with cursor := some c, lastSeen := now }, ?_, rfl, rfl⟩
    apply (mem_get_users_iff _ _).2
    refine ⟨⟨u.id, ?_⟩, hact⟩
    show (u.id, { u with cursor := some c, lastSeen := now })
      ∈ hmUpdate u.id _ (s.add_user u).2.1.users
    rw [hins]
    exact mem_hmUpdate_hmInsert u.id _ u s.users

/-- C7 witness: Alice (active) joins the empty session, moves her cursor,
and the roster shows her id with that cursor. -/
theorem join_then_move_cursor_witness :
    ∃ u2 ∈ ((emptySession.add_user demoAlice).2.1.update_cursor
        demoAlice.id demoCursor 9).1.get_users,
      u2.id = demoAlice.id ∧ u2.cursor = some demoCursor :=
  join_then_move_cursor emptySession demoAlice demoCursor 9 rfl rfl

/-- C8: for an id present in the store, `mark_inactive` clears exactly the
active flag of that record (the record stays in the map with id, name,
color and cursor unchanged, and the map size is unchanged), publishes
exactly one `UserInactive`, the flagged user disappears from `get_users`,
and `get_users` returns exactly the stored records whose active flag is
set. -/
theorem mark_inactive_spec (s : CollabSession) (uid : String)
    (u : UserPresence) (hfound : hmLookup uid s.users = some u)
    (hnd : (s.users.map Prod.fst).Nodup)
    (hwk : ∀ e ∈ s.users, e.1 = e.2.id) :
    (s.mark_inactive uid).1.get_user uid = some { u with isActive := false }
    ∧ UserPresence.id { u with isActive := false } = u.id
    ∧ UserPresence.name { u with isActive := false } = u.name
    ∧ UserPresence.color { u with isActive := false } = u.color
    ∧ UserPresence.cursor { u with isActive := false } = u.cursor
    ∧ (s.mark_inactive uid).1.users.length = s.users.length
    ∧ (s.mark_inactive uid).2 = [CollabMessage.UserInactive uid]
    ∧ (∀ v ∈ (s.mark_inactive uid).1.get_users, v.id ≠ uid)
    ∧ (∀ (s2 : CollabSession) (v : UserPresence),
        v ∈ s2.get_users ↔ (∃ k, (k, v) ∈ s2.users) ∧ v.isActive = true) := by
  refine ⟨?_, rfl, rfl, rfl, rfl, ?_, rfl, ?_, mem_get_users_iff⟩
  · show hmLookup uid (hmUpdate uid _ s.users) = _
    rw [hmLookup_hmUpdate_self, hfound]
    rfl
  · exact hmUpdate_length uid _ s.users
  · intro v hv hvid
    rcases (mem_get_users_iff _ v).1 hv with ⟨⟨k, hk⟩, hact⟩
    have hk2 : (k, v) ∈ hmUpdate uid (fun w => { w with isActive := false }) s.users := hk
    rcases mem_hmUpdate_of uid _ s.users hnd (k, v) hk2 with ⟨hm, hne⟩ | ⟨w, _, heq⟩
    · exact hne ((hwk (k, v) hm).trans hvid)
    · have hv2 : v = { w with isActive := false } := congrArg Prod.snd heq
      rw [hv2] at hact
      exact Bool.noConfusion hact

/-- C8 witness: marking Alice inactive in the full session keeps her record
(with the flag down) and empties the roster. -/
theorem mark_inactive_spec_witness :
    (fullSession.mark_inactive "u1").1.get_user "u1"
      = some { demoAlice with isActive := false }
    ∧ (fullSession.mark_inactive "u1").2 = [CollabMessage.UserInactive "u1"] := by
  have h := mark_inactive_spec fullSession "u1" demoAlice (by decide) (by decide) (by decide)
  exact ⟨h.1, h.2.2.2.2.2.2.1⟩

theorem applyOp_maxUsers (s : CollabSession) (op : SessionOp) :
    (applyOp s op).maxUsers = s.maxUsers := by
  cases op with
  | addUser p =>
    show (s.add_user p).2.1.maxUsers = s.maxUsers
    unfold CollabSession.add_user
    by_cases h : s.users.length ≥ s.maxUsers
    · rw [if_pos h]
    · rw [if_neg h]
  | removeUser uid => rfl
  | markInactive uid => rfl
  | updateCursor uid c now => rfl
  | batchCursor updates now => rfl
  | cleanupInactive t now => rfl

theorem applyOp_length_le (s : CollabSession) (op : SessionOp)
    (hop : op.isAdd = false) :
    (applyOp s op).users.length ≤ s.users.length := by
  cases op with
  | addUser p => exact Bool.noConfusion hop
  | removeUser uid => exact hmRemove_length_le uid s.users
  | markInactive uid => exact le_of_eq (hmUpdate_length uid _ s.users)
  | updateCursor uid c now => exact le_of_eq (hmUpdate_length uid _ s.users)
  | batchCursor updates now => exact le_of_eq (foldl_hmUpdate_length updates now s.users)
  | cleanupInactive t now => exact foldl_hmRemove_length_le _ s.users

theorem applyOp_le_max (s : CollabSession) (hs : s.users.length ≤ s.maxUsers)
    (op : SessionOp) : (applyOp s op).users.length ≤ s.maxUsers := by
  cases op with
  | addUser p =>
    show (s.add_user p).2.1.users.length ≤ s.maxUsers
    unfold CollabSession.add_user
    by_cases h : s.users.length ≥ s.maxUsers
    · rw [if_pos h]
      exact hs
    · rw [if_neg h]
      exact le_trans (hmInsert_length_le p.id p s.users)
        (Nat.succ_le_of_lt (lt_of_not_ge h))
  | removeUser uid =>
    exact le_trans (applyOp_length_le s (SessionOp.removeUser uid) rfl) hs
  | markInactive uid =>
    exact le_trans (applyOp_length_le s (SessionOp.markInactive uid) rfl) hs
  | updateCursor uid c now =>
    exact le_trans (applyOp_length_le s (SessionOp.updateCursor uid c now) rfl) hs
  | batchCursor updates now =>
    exact le_trans (applyOp_length_le s (SessionOp.batchCursor updates now) rfl) hs
  | cleanupInactive t now =>
    exact le_trans (applyOp_length_le s (SessionOp.cleanupInactive t now) rfl) hs

theorem runOps_le_max (ops : List SessionOp) :
    ∀ s : CollabSession, s.users.length ≤ s.maxUsers →
      (runOps s ops).users.length ≤ (runOps s ops).maxUsers
      ∧ (runOps s ops).maxUsers = s.maxUsers := by
  induction ops with
  | nil => exact fun s hs => ⟨hs, rfl⟩
  | cons op ops ih =>
    intro s hs
    have h1 : (applyOp s op).users.length ≤ (applyOp s op).maxUsers := by
      rw [applyOp_maxUsers]
      exact applyOp_le_max s hs op
    rcases ih (applyOp s op) h1 with ⟨ha, hb⟩
    exact ⟨ha, hb.trans (applyOp_maxUsers s op)⟩

/-- C2: from any state satisfying `|users| ≤ maxUsers`, every public
mutating operation preserves the bound (and the configured capacity), every
operation other than `add_user` never increases the stored user count, and
along any operation sequence from a fresh session the user count never
exceeds `maxUsers`. -/
theorem capacity_invariant (s : CollabSession)
    (hs : s.users.length ≤ s.maxUsers) (op : SessionOp) :
    (applyOp s op).users.length ≤ s.maxUsers
    ∧ (applyOp s op).maxUsers = s.maxUsers
    ∧ (op.isAdd = false → (applyOp s op).users.length ≤ s.users.length)
    ∧ ∀ (sid : String) (t : Int) (m : Nat) (ops : List SessionOp),
        (runOps (CollabSession.new sid t m) ops).users.length ≤ m := by
  refine ⟨applyOp_le_max s hs op, applyOp_maxUsers s op,
    applyOp_length_le s op, ?_⟩
  intro sid t m ops
  rcases runOps_le_max ops (CollabSession.new sid t m) (Nat.zero_le m) with ⟨ha, hb⟩
  exact le_of_le_of_eq ha hb

/-- C2 witness: on the empty session, removing an absent user keeps the
count within the capacity of ten. -/
theorem capacity_invariant_witness :
    (applyOp emptySession (SessionOp.removeUser "u1")).users.length
      ≤ emptySession.maxUsers :=
  (capacity_invariant emptySession (by decide) (SessionOp.removeUser "u1")).1
